import Mathlib

/-!
# Verification of the concurrent ZIP entry reader (`src/read/concurrent.rs`)

A shallow embedding of the module `read::concurrent` of `rs-async-zip`:
the `ZipFileReader` struct, its constructor `new`, the name lookup `entry`,
and the per-entry acquisition operation `entry_reader`.

External collaborators (the directory indexer `read::seek::read_cd`, the
`ZipEntry` record, the `CompressionReader` factory and the `tokio` file
primitives) are not part of the embedded source file; they are modelled
from the specification's contracts, as marked on each definition.

Bytes are `Nat` (each < 256 in any real archive; nothing here depends on
the bound).  The filesystem is a map from filename to either the file's
contents or an I/O error, so that reopening the archive by name on each
acquisition — the source's concurrency strategy — is observable.
-/

set_option autoImplicit false

namespace ConcurrentZip

/-- An I/O failure from the underlying storage, propagated verbatim. -/
inductive IOErr where
  | notFound
  | seekBeyondEnd
  | other (code : Nat)
deriving DecidableEq, Repr

/-- Modelled from the spec (§3, §6): the compression method enumeration —
"store, deflate, …"; at minimum a passthrough "store" and one real
compression method. -/
inductive Compression where
  | stored
  | deflate
deriving DecidableEq, Repr

/-- Modelled from the spec (§3): an Entry Descriptor — name, compression
method, data offset (absolute byte position of payload start), declared
uncompressed size (optional; may be unknown at index time).  The on-disk
payload length (`compressed_size`, likewise optional) is the field §9
distinguishes from the uncompressed size for non-passthrough methods. -/
structure ZipEntry where
  name : String
  compression : Compression
  data_offset : Nat
  uncompressed_size : Option Nat
  compressed_size : Option Nat
deriving DecidableEq, Repr

/-- The error taxonomy consumed/produced by the core (spec §7):
I/O failure, format failure (from indexing), index-out-of-bounds. -/
inductive ZipError where
  | EntryIndexOutOfBounds
  | IoError (e : IOErr)
  | FormatError (msg : String)
deriving DecidableEq, Repr

/-- A filesystem snapshot: maps a filename to its byte contents, or to the
I/O error produced when opening it fails.  `File::open` is evaluation. -/
def FS : Type := String → Except IOErr (List Nat)

/-- Modelled from the spec (§4.3): the external seek primitive.  Seeking
to `off` positions the cursor there; it "fails with an I/O failure if the
seek target is invalid (e.g., beyond the archive's current length)". -/
def seek (contents : List Nat) (off : Nat) : Except IOErr Nat :=
  if off ≤ contents.length then Except.ok off else Except.error IOErr.seekBeyondEnd

/-- The outcome of a call that, besides returning `Ok` or a recoverable
`Err`, may abort the task: `panics` models a Rust panic (`unwrap` on
`None`), which is not a recoverable `Result`. -/
inductive Outcome (α : Type) where
  | ok (a : α)
  | err (e : ZipError)
  | panics
deriving DecidableEq, Repr

/-- The value returned by `entry_reader`: a `ZipEntryReader` wrapping the
`CompressionReader` over the bounded raw window.  `rawBytes` is the exact
byte window the `take(..)` bound exposes to the decoder (the channel's
contents from the seek position, limited by the bound). -/
structure ConcurrentReader where
  entry : ZipEntry
  rawBytes : List Nat
deriving DecidableEq, Repr

/-- `ZipFileReader` (concurrent.rs, lines 43–46): the archive's filename
(a locator, not an open handle) and the indexed entry sequence. -/
structure ZipFileReader where
  filename : String
  entries : List ZipEntry
deriving DecidableEq, Repr

/-- `ZipFileReader::new` (concurrent.rs, lines 50–55): open the file,
hand it to the directory indexer `read_cd`, store filename and entries.
The indexer is external (spec §6), so it is a parameter: any function
from the opened contents to an entry sequence or a format failure. -/
def ZipFileReader.new (fs : FS) (readCd : List Nat → Except ZipError (List ZipEntry))
    (filename : String) : Except ZipError ZipFileReader :=
  match fs filename with
  | Except.error e => Except.error (ZipError.IoError e)
  | Except.ok contents =>
    match readCd contents with
    | Except.error e => Except.error e
    | Except.ok entries => Except.ok { filename := filename, entries := entries }

/-- `ZipFileReader::entries` (concurrent.rs, lines 58–60). -/
def ZipFileReader.entriesList (z : ZipFileReader) : List ZipEntry :=
  z.entries

/-- `ZipFileReader::entry` (concurrent.rs, lines 63–71): scan the entries
in index order, return the first whose name equals the argument. -/
def entryLoop (name : String) : Nat → List ZipEntry → Option (Nat × ZipEntry)
  | _, [] => none
  | index, e :: rest =>
    if e.name = name then some (index, e) else entryLoop name (index + 1) rest

/-- `ZipFileReader::entry` entry point: the loop starting at index 0. -/
def ZipFileReader.entry (z : ZipFileReader) (name : String) : Option (Nat × ZipEntry) :=
  entryLoop name 0 z.entries

/-- `ZipFileReader::entry_reader` (concurrent.rs, lines 74–83), step by
step in source order:
1. `self.entries.get(index).ok_or(ZipError::EntryIndexOutOfBounds)?`
2. `File::open(self.filename).await?` — reopen the archive by name;
3. `fs_file.seek(SeekFrom::Start(entry.data_offset())).await?`
4. `fs_file.take(entry.uncompressed_size.unwrap().into())` — `unwrap`
   panics when the field is `None`; otherwise the raw window is the
   contents from the cursor, limited to that many bytes;
5. `CompressionReader::from_reader(entry.compression(), reader)` and the
   `ZipEntryReader` wrap, represented by `ConcurrentReader`. -/
def ZipFileReader.entry_reader (fs : FS) (z : ZipFileReader) (index : Nat) :
    Outcome ConcurrentReader :=
  match z.entries.get? index with
  | none => Outcome.err ZipError.EntryIndexOutOfBounds
  | some entry =>
    match fs z.filename with
    | Except.error e => Outcome.err (ZipError.IoError e)
    | Except.ok contents =>
      match seek contents entry.data_offset with
      | Except.error e => Outcome.err (ZipError.IoError e)
      | Except.ok pos =>
        match entry.uncompressed_size with
        | none => Outcome.panics
        | some sz =>
          Outcome.ok { entry := entry, rawBytes := (contents.drop pos).take sz }

/-- Modelled from the spec (§6): the Compression Reader Factory's decode
contract, `decode(method, bounded_source) → decoding_stream`.  A decoder
is a function from the complete raw window to the decoded bytes, or
`none` when the stream is malformed or truncated. -/
def Decoder : Type := Compression → List Nat → Option (List Nat)

/-- Modelled from the spec (§6, §9): a concrete factory with a
passthrough "store" and one real non-passthrough method.  The deflate
model keeps §9's essential property — the compressed form and the
decoded form have genuinely different lengths, in either direction, and
decoding needs exactly the whole compressed stream: a valid stream is a
count byte `n` followed by one value byte `b`, decoding to `n` copies of
`b`; anything truncated or overlong is rejected. -/
def toyDecode : Decoder
  | Compression.stored, bs => some bs
  | Compression.deflate, [n, b] => some (List.replicate n b)
  | Compression.deflate, _ => none

/-- Modelled from the spec (§4.3, §6): reading the returned decoding
stream to exhaustion yields the decode of the bounded raw window. -/
def readToEnd (d : Decoder) (r : ConcurrentReader) : Option (List Nat) :=
  d r.entry.compression r.rawBytes

/-- An entry is intact inside `contents` (spec §8 "intact archive"): both
size fields are declared, the compressed payload of `compressed_size`
bytes lies wholly inside the archive at `data_offset`, and decoding that
payload with the entry's method yields `uncompressed_size` bytes. -/
def intactAt (d : Decoder) (contents : List Nat) (e : ZipEntry) : Prop :=
  ∃ cs us out,
    e.compressed_size = some cs ∧
    e.uncompressed_size = some us ∧
    e.data_offset + cs ≤ contents.length ∧
    d e.compression ((contents.drop e.data_offset).take cs) = some out ∧
    out.length = us

/-! ## A scheduler model for interleaved reads (spec §5)

One acquired reader's read state: the decoded bytes not yet delivered and
the bytes the caller has collected so far.  A cooperative schedule is a
list of booleans, each granting one read step to the first or the second
reader; `runSchedule` executes it.  The sequential execution of the same
two reads is the schedule that runs the first reader to exhaustion and
then the second. -/

/-- Per-reader read state: undelivered decoded bytes and collected output. -/
structure RState where
  pending : List Nat
  out : List Nat
deriving DecidableEq, Repr

/-- One read step on one reader: deliver the next byte, or do nothing at
exhaustion.  It touches no state outside the given reader. -/
def stepRead (r : RState) : RState :=
  match r.pending with
  | [] => r
  | b :: rest => { pending := rest, out := r.out ++ [b] }

/-- Run a cooperative schedule over a pair of readers: `true` grants a
step to the first reader, `false` to the second. -/
def runSchedule : List Bool → RState × RState → RState × RState
  | [], s => s
  | true :: sch, s => runSchedule sch (stepRead s.1, s.2)
  | false :: sch, s => runSchedule sch (s.1, stepRead s.2)

/-- Number of steps a schedule grants the first reader. -/
def countT : List Bool → Nat
  | [] => 0
  | true :: sch => countT sch + 1
  | false :: sch => countT sch

/-- Number of steps a schedule grants the second reader. -/
def countF : List Bool → Nat
  | [] => 0
  | true :: sch => countF sch
  | false :: sch => countF sch + 1

/-- The read state of a freshly acquired reader with decoded content `bs`. -/
def startState (bs : List Nat) : RState :=
  { pending := bs, out := [] }

/-- The sequential (non-concurrent) schedule: all of reader one, then all
of reader two. -/
def seqSchedule (m n : Nat) : List Bool :=
  List.replicate m true ++ List.replicate n false

/-! ## Concrete fixtures for witnesses and counterexamples -/

/-- An entry whose declared uncompressed size the directory indexer left
unset (spec §3 allows this; §9 calls the unconditional access a latent
crash). -/
def entryNoSize : ZipEntry :=
  { name := "nosize.bin", compression := Compression.stored, data_offset := 0,
    uncompressed_size := none, compressed_size := some 3 }

/-- A filesystem holding only the archive `missing.zip` = `[1, 2, 3]`. -/
def fsNoSize : FS := fun name =>
  if name = "missing.zip" then Except.ok [1, 2, 3] else Except.error IOErr.notFound

/-- The archive reader over `missing.zip` indexing the size-less entry. -/
def zNoSize : ZipFileReader :=
  { filename := "missing.zip", entries := [entryNoSize] }

/-- A deflate entry whose decoded form (3 bytes) is longer than its
on-disk compressed payload (2 bytes), as real compression produces. -/
def entryOver : ZipEntry :=
  { name := "over.bin", compression := Compression.deflate, data_offset := 1,
    uncompressed_size := some 3, compressed_size := some 2 }

/-- Archive contents for `over.zip`: one leading byte, then the entry's
2-byte compressed payload `[3, 7]` (decoding to `[7, 7, 7]`), then two
bytes `[99, 98]` belonging to the next entry / trailing index. -/
def overContents : List Nat := [255, 3, 7, 99, 98]

/-- A filesystem holding only the archive `over.zip`. -/
def fsOver : FS := fun name =>
  if name = "over.zip" then Except.ok overContents else Except.error IOErr.notFound

/-- The archive reader over `over.zip`. -/
def zOver : ZipFileReader :=
  { filename := "over.zip", entries := [entryOver] }

/-- A deflate entry whose on-disk compressed payload (2 bytes) is longer
than its decoded form (1 byte), as incompressible data produces. -/
def entryTrunc : ZipEntry :=
  { name := "trunc.bin", compression := Compression.deflate, data_offset := 0,
    uncompressed_size := some 1, compressed_size := some 2 }

/-- Archive contents for `trunc.zip`: the entry's compressed payload
`[1, 42]` (decoding to `[42]`), then one trailing-index byte. -/
def truncContents : List Nat := [1, 42, 5]

/-- A filesystem holding only the archive `trunc.zip`. -/
def fsTrunc : FS := fun name =>
  if name = "trunc.zip" then Except.ok truncContents else Except.error IOErr.notFound

/-- The archive reader over `trunc.zip`. -/
def zTrunc : ZipFileReader :=
  { filename := "trunc.zip", entries := [entryTrunc] }

/-- A stored entry at offset 0 of `ab.zip`, payload `[10, 11]`. -/
def entryA : ZipEntry :=
  { name := "foo.txt", compression := Compression.stored, data_offset := 0,
    uncompressed_size := some 2, compressed_size := some 2 }

/-- A stored entry at offset 2 of `ab.zip`, payload `[20, 21]`. -/
def entryB : ZipEntry :=
  { name := "bar.bin", compression := Compression.stored, data_offset := 2,
    uncompressed_size := some 2, compressed_size := some 2 }

/-- Archive contents for `ab.zip`: the two stored payloads back to back. -/
def abContents : List Nat := [10, 11, 20, 21]

/-- A filesystem holding only the archive `ab.zip`. -/
def fsAB : FS := fun name =>
  if name = "ab.zip" then Except.ok abContents else Except.error IOErr.notFound

/-- The archive reader over `ab.zip` with its two entries. -/
def zAB : ZipFileReader :=
  { filename := "ab.zip", entries := [entryA, entryB] }

/-- A filesystem on which every open fails, for construction-failure and
deleted-archive scenarios. -/
def fsGone : FS := fun _ => Except.error IOErr.notFound

/-- A trivial directory indexer accepting any contents, for witnesses. -/
def readCdNil : List Nat → Except ZipError (List ZipEntry) := fun _ => Except.ok []

/-- A directory indexer returning `ab.zip`'s index, for witnesses. -/
def readCdAB : List Nat → Except ZipError (List ZipEntry) := fun _ =>
  Except.ok [entryA, entryB]

/-- An entry whose data offset (100) lies beyond `ab.zip`'s length (4). -/
def entryFar : ZipEntry :=
  { name := "far.bin", compression := Compression.stored, data_offset := 100,
    uncompressed_size := some 1, compressed_size := some 1 }

/-- The archive reader over `ab.zip` indexing the out-of-range entry. -/
def zFar : ZipFileReader :=
  { filename := "ab.zip", entries := [entryFar] }

/-- First entry named `dup.txt`, at index 0 of the duplicate-name index. -/
def dupE0 : ZipEntry :=
  { name := "dup.txt", compression := Compression.stored, data_offset := 0,
    uncompressed_size := some 1, compressed_size := some 1 }

/-- The middle entry, uniquely named, at index 1. -/
def dupE1 : ZipEntry :=
  { name := "solo.txt", compression := Compression.stored, data_offset := 1,
    uncompressed_size := some 1, compressed_size := some 1 }

/-- Second entry named `dup.txt`, at index 2. -/
def dupE2 : ZipEntry :=
  { name := "dup.txt", compression := Compression.stored, data_offset := 2,
    uncompressed_size := some 1, compressed_size := some 1 }

/-- Entries with a duplicate name, for the lookup witness: index 0 and
index 2 are both named `dup.txt`. -/
def dupEntries : List ZipEntry := [dupE0, dupE1, dupE2]

/-- The archive reader with the duplicate-name index. -/
def zDup : ZipFileReader :=
  { filename := "dup.zip", entries := dupEntries }

/-- A directory indexer that always reports a truncated index. -/
def readCdBad : List Nat → Except ZipError (List ZipEntry) := fun _ =>
  Except.error (ZipError.FormatError "truncated index")

/-! ## Helper lemmas -/

/-- The lookup loop starting at base index `k` finds exactly the lowest
match, with indices shifted by `k`. -/
theorem entryLoop_some_iff (s : String) (l : List ZipEntry) :
    ∀ (k i : Nat) (e : ZipEntry),
      entryLoop s k l = some (i, e) ↔
        ∃ m, i = k + m ∧ l.get? m = some e ∧ e.name = s ∧
          ∀ j, j < m → ∀ f, l.get? j = some f → f.name ≠ s := by
  induction l with
  | nil =>
    intro k i e
    constructor
    · intro h
      simp [entryLoop] at h
    · rintro ⟨m, _, hget, _, _⟩
      simp at hget
  | cons a t ih =>
    intro k i e
    by_cases ha : a.name = s
    · have hstep : entryLoop s k (a :: t) = some (k, a) := by
        simp [entryLoop, ha]
      rw [hstep]
      constructor
      · intro h
        have h' : k = i ∧ a = e := by
          simpa using h
        obtain ⟨rfl, rfl⟩ := h'
        refine ⟨0, by omega, rfl, ha, ?_⟩
        intro j hj f _
        exact absurd hj (Nat.not_lt_zero j)
      · rintro ⟨m, rfl, hget, hname, hlow⟩
        cases m with
        | zero =>
          have he : a = e := by simpa using hget
          subst he
          rfl
        | succ m' =>
          exact absurd ha (hlow 0 (Nat.succ_pos m') a rfl)
    · have hstep : entryLoop s k (a :: t) = entryLoop s (k + 1) t := by
        simp [entryLoop, ha]
      rw [hstep, ih (k + 1) i e]
      constructor
      · rintro ⟨m, rfl, hget, hname, hlow⟩
        refine ⟨m + 1, by omega, by simpa using hget, hname, ?_⟩
        intro j hj f hf
        cases j with
        | zero =>
          have hfa : a = f := by simpa using hf
          subst hfa
          exact ha
        | succ j' =>
          exact hlow j' (by omega) f (by simpa using hf)
      · rintro ⟨m, hi, hget, hname, hlow⟩
        cases m with
        | zero =>
          have he : a = e := by simpa using hget
          subst he
          exact absurd hname ha
        | succ m' =>
          refine ⟨m', by omega, by simpa using hget, hname, ?_⟩
          intro j hj f hf
          exact hlow (j + 1) (by omega) f (by simpa using hf)

/-- The lookup loop returns `none` exactly when no entry's name matches. -/
theorem entryLoop_none_iff (s : String) (l : List ZipEntry) :
    ∀ k : Nat, entryLoop s k l = none ↔ ∀ e ∈ l, e.name ≠ s := by
  induction l with
  | nil =>
    intro k
    simp [entryLoop]
  | cons a t ih =>
    intro k
    by_cases ha : a.name = s
    · have hstep : entryLoop s k (a :: t) = some (k, a) := by
        simp [entryLoop, ha]
      rw [hstep]
      constructor
      · intro h
        exact absurd h (by simp)
      · intro h
        exact absurd ha (h a (List.mem_cons_self a t))
    · have hstep : entryLoop s k (a :: t) = entryLoop s (k + 1) t := by
        simp [entryLoop, ha]
      rw [hstep, ih (k + 1)]
      constructor
      · intro h e he
        rcases List.mem_cons.mp he with rfl | ht
        · exact ha
        · exact h e ht
      · intro h e he
        exact h e (List.mem_cons_of_mem a he)

/-- Running a schedule applies to each reader exactly its granted number
of steps; neither reader's outcome depends on the other's steps. -/
theorem runSchedule_eq (sch : List Bool) :
    ∀ a b : RState,
      runSchedule sch (a, b) = (stepRead^[countT sch] a, stepRead^[countF sch] b) := by
  induction sch with
  | nil =>
    intro a b
    simp [runSchedule, countT, countF]
  | cons x sch ih =>
    intro a b
    cases x with
    | true =>
      show runSchedule sch (stepRead a, b) = _
      rw [ih (stepRead a) b]
      show _ = (stepRead^[countT sch + 1] a, stepRead^[countF sch] b)
      rw [Function.iterate_succ_apply]
    | false =>
      show runSchedule sch (a, stepRead b) = _
      rw [ih a (stepRead b)]
      show _ = (stepRead^[countT sch] a, stepRead^[countF sch + 1] b)
      rw [Function.iterate_succ_apply]

/-- Granting a reader at least as many steps as it has pending bytes
exhausts it and delivers its pending bytes, in order, after its output. -/
theorem stepRead_iterate_exhaust :
    ∀ (n : Nat) (r : RState), r.pending.length ≤ n →
      stepRead^[n] r = { pending := [], out := r.out ++ r.pending } := by
  intro n
  induction n with
  | zero =>
    intro r h
    obtain ⟨p, o⟩ := r
    have hp : p = [] := List.eq_nil_of_length_eq_zero (Nat.le_zero.mp h)
    subst hp
    simp
  | succ n ih =>
    intro r h
    obtain ⟨p, o⟩ := r
    cases p with
    | nil =>
      rw [Function.iterate_succ_apply]
      have hs : stepRead ⟨[], o⟩ = ⟨[], o⟩ := rfl
      rw [hs, ih ⟨[], o⟩ (by simp)]
    | cons x rest =>
      rw [Function.iterate_succ_apply]
      have hs : stepRead ⟨x :: rest, o⟩ = ⟨rest, o ++ [x]⟩ := rfl
      rw [hs, ih ⟨rest, o ++ [x]⟩ (by simpa using h)]
      simp

/-- `countT` distributes over append. -/
theorem countT_append (u v : List Bool) : countT (u ++ v) = countT u + countT v := by
  induction u with
  | nil => simp [countT]
  | cons x u ih =>
    cases x with
    | true =>
      have h1 : countT ((true :: u) ++ v) = countT (u ++ v) + 1 := rfl
      have h2 : countT (true :: u) = countT u + 1 := rfl
      rw [h1, h2, ih]
      omega
    | false =>
      have h1 : countT ((false :: u) ++ v) = countT (u ++ v) := rfl
      have h2 : countT (false :: u) = countT u := rfl
      rw [h1, h2, ih]

/-- `countF` distributes over append. -/
theorem countF_append (u v : List Bool) : countF (u ++ v) = countF u + countF v := by
  induction u with
  | nil => simp [countF]
  | cons x u ih =>
    cases x with
    | true =>
      have h1 : countF ((true :: u) ++ v) = countF (u ++ v) := rfl
      have h2 : countF (true :: u) = countF u := rfl
      rw [h1, h2, ih]
    | false =>
      have h1 : countF ((false :: u) ++ v) = countF (u ++ v) + 1 := rfl
      have h2 : countF (false :: u) = countF u + 1 := rfl
      rw [h1, h2, ih]
      omega

/-- Replicated `true` grants all its steps to the first reader. -/
theorem countT_replicate_true (m : Nat) : countT (List.replicate m true) = m := by
  induction m with
  | zero => rfl
  | succ m ih => simpa [List.replicate, countT] using ih

/-- Replicated `false` grants the first reader nothing. -/
theorem countT_replicate_false (n : Nat) : countT (List.replicate n false) = 0 := by
  induction n with
  | zero => rfl
  | succ n ih => simpa [List.replicate, countT] using ih

/-- Replicated `true` grants the second reader nothing. -/
theorem countF_replicate_true (m : Nat) : countF (List.replicate m true) = 0 := by
  induction m with
  | zero => rfl
  | succ m ih => simpa [List.replicate, countF] using ih

/-- Replicated `false` grants all its steps to the second reader. -/
theorem countF_replicate_false (n : Nat) : countF (List.replicate n false) = n := by
  induction n with
  | zero => rfl
  | succ n ih => simpa [List.replicate, countF] using ih

/-- The sequential schedule grants the first reader exactly `m` steps. -/
theorem countT_seqSchedule (m n : Nat) : countT (seqSchedule m n) = m := by
  simp [seqSchedule, countT_append, countT_replicate_true, countT_replicate_false]

/-- The sequential schedule grants the second reader exactly `n` steps. -/
theorem countF_seqSchedule (m n : Nat) : countF (seqSchedule m n) = n := by
  simp [seqSchedule, countF_append, countF_replicate_true, countF_replicate_false]

/-! ## The claims -/

/-- Claim C1.  The claim says `entry_reader` on a valid index whose entry
lacks a declared uncompressed size returns a recoverable
missing-size-metadata failure and never crashes.  The source (line 79)
calls `entry.uncompressed_size.unwrap()`, which panics when the field is
`None`: on the concrete archive `missing.zip`, whose single indexed entry
has no declared size, the call aborts instead of returning any `Err`. -/
theorem entry_reader_missing_size_aborts :
    ZipFileReader.entry_reader fsNoSize zNoSize 0 = Outcome.panics := by
  decide

/-- Claim C2.  The claim says the raw-read bound equals the entry's
on-disk (compressed) payload extent.  The source (line 79) bounds the
channel with `take(entry.uncompressed_size...)`.  On the intact archive
`over.zip` the entry's compressed payload is the 2 bytes `[3, 7]` at
offset 1 (third conjunct), yet the acquired reader's raw window is
`[3, 7, 99]` — 3 bytes, including byte `99`, which belongs to the next
entry — so the bound is the uncompressed size, not the payload extent,
and the raw read runs past the entry's data. -/
theorem entry_reader_bound_is_uncompressed_size :
    intactAt toyDecode overContents entryOver ∧
    ZipFileReader.entry_reader fsOver zOver 0 =
      Outcome.ok { entry := entryOver, rawBytes := [3, 7, 99] } ∧
    (overContents.drop entryOver.data_offset).take 2 = [3, 7] := by
  refine ⟨⟨2, 3, [7, 7, 7], rfl, rfl, by decide, by decide, rfl⟩, by decide, by decide⟩

/-- Claim C3.  The claim says that on an intact archive the decoded
stream yields exactly the declared uncompressed size for every method,
including deflate.  On the intact archive `trunc.zip` the deflate entry's
compressed payload `[1, 42]` (2 bytes) decodes to `[42]` (1 byte); the
source bounds the raw read at the uncompressed size 1, so the decoder
receives only the truncated stream `[1]` and decoding fails, producing
`none` rather than 1 decoded byte. -/
theorem entry_reader_deflate_truncated :
    intactAt toyDecode truncContents entryTrunc ∧
    ZipFileReader.entry_reader fsTrunc zTrunc 0 =
      Outcome.ok { entry := entryTrunc, rawBytes := [1] } ∧
    readToEnd toyDecode { entry := entryTrunc, rawBytes := [1] } = none := by
  refine ⟨⟨2, 1, [42], rfl, rfl, by decide, by decide, rfl⟩, by decide, rfl⟩

/-- Claim C4.  For every archive reader (including one with an empty
index) and every index at or past the entry count, `entry_reader` fails
with the index-out-of-bounds failure; the result is the same for every
filesystem state, so the failure is decided before any channel is opened
or any I/O attempted. -/
theorem entry_reader_out_of_bounds (fs : FS) (z : ZipFileReader) (i : Nat)
    (h : z.entries.length ≤ i) :
    z.entry_reader fs i = Outcome.err ZipError.EntryIndexOutOfBounds := by
  have hnone : z.entries[i]? = none := List.getElem?_eq_none h
  simp [ZipFileReader.entry_reader, hnone]

/-- Witness for C4: an empty archive reader, index 0, on a filesystem
where every open would fail — the failure is still out-of-bounds. -/
theorem entry_reader_out_of_bounds_witness :
    ZipFileReader.entry_reader fsGone { filename := "empty.zip", entries := [] } 0 =
      Outcome.err ZipError.EntryIndexOutOfBounds :=
  entry_reader_out_of_bounds fsGone { filename := "empty.zip", entries := [] } 0
    (by decide)

/-- Claim C5.  `entry` returns some `(i, e)` exactly when `e` sits at
index `i` of the entry sequence, its name equals the argument exactly,
and every lower index holds a non-matching name (so duplicate names
resolve to the lowest index); it returns `none` exactly when no entry's
name matches.  The embedded operation is a pure function of the receiver,
mutating nothing. -/
theorem entry_lowest_index_match (z : ZipFileReader) (s : String) :
    (∀ i e, z.entry s = some (i, e) ↔
      (z.entries.get? i = some e ∧ e.name = s ∧
        ∀ j, j < i → ∀ f, z.entries.get? j = some f → f.name ≠ s)) ∧
    (z.entry s = none ↔ ∀ e ∈ z.entries, e.name ≠ s) := by
  constructor
  · intro i e
    show entryLoop s 0 z.entries = some (i, e) ↔ _
    rw [entryLoop_some_iff s z.entries 0 i e]
    constructor
    · rintro ⟨m, him, hget, hname, hlow⟩
      have hm : i = m := by omega
      subst hm
      exact ⟨hget, hname, hlow⟩
    · rintro ⟨hget, hname, hlow⟩
      exact ⟨i, by omega, hget, hname, hlow⟩
  · show entryLoop s 0 z.entries = none ↔ _
    exact entryLoop_none_iff s z.entries 0

/-- Witness for C5: on an index with `dup.txt` at positions 0 and 2,
lookup resolves to position 0, by the theorem's backward direction. -/
theorem entry_lowest_index_match_witness :
    zDup.entry "dup.txt" = some (0, dupE0) :=
  ((entry_lowest_index_match zDup "dup.txt").1 0 dupE0).mpr
    ⟨rfl, rfl, fun j hj _ _ => absurd hj (Nat.not_lt_zero j)⟩

/-- Claim C6.  Construction is atomic: an open failure yields exactly the
I/O failure, an indexer failure is propagated verbatim, and in both cases
no reader value exists (the result is the error alone); on success the
reader stores the locator and the indexer's full entry sequence. -/
theorem new_atomic (fs : FS) (readCd : List Nat → Except ZipError (List ZipEntry))
    (filename : String) :
    (∀ e, fs filename = Except.error e →
      ZipFileReader.new fs readCd filename = Except.error (ZipError.IoError e)) ∧
    (∀ c ze, fs filename = Except.ok c → readCd c = Except.error ze →
      ZipFileReader.new fs readCd filename = Except.error ze) ∧
    (∀ c es, fs filename = Except.ok c → readCd c = Except.ok es →
      ZipFileReader.new fs readCd filename =
        Except.ok { filename := filename, entries := es }) := by
  refine ⟨?_, ?_, ?_⟩
  · intro e he
    simp [ZipFileReader.new, he]
  · intro c ze hc hze
    simp [ZipFileReader.new, hc, hze]
  · intro c es hc hes
    simp [ZipFileReader.new, hc, hes]

/-- Witness for C6: all three cases at concrete inputs — a missing file
gives the I/O failure, a truncated index propagates the format failure
verbatim, and a clean open-and-parse stores locator and entries. -/
theorem new_atomic_witness :
    ZipFileReader.new fsGone readCdNil "gone.zip" =
      Except.error (ZipError.IoError IOErr.notFound) ∧
    ZipFileReader.new fsAB readCdBad "ab.zip" =
      Except.error (ZipError.FormatError "truncated index") ∧
    ZipFileReader.new fsAB readCdAB "ab.zip" =
      Except.ok { filename := "ab.zip", entries := [entryA, entryB] } :=
  ⟨(new_atomic fsGone readCdNil "gone.zip").1 IOErr.notFound rfl,
   (new_atomic fsAB readCdBad "ab.zip").2.1 abContents
     (ZipError.FormatError "truncated index") rfl rfl,
   (new_atomic fsAB readCdAB "ab.zip").2.2 abContents [entryA, entryB]
     rfl rfl⟩

/-- Claim C7.  For a valid index, when the entry's data offset lies
beyond the archive's current length the seek fails and `entry_reader`
returns that I/O failure — no reader positioned at an invalid offset is
produced.  (The seek primitive is external; it is modelled from §4.3's
contract that an out-of-range seek target is an I/O failure.) -/
theorem entry_reader_seek_beyond_end (fs : FS) (z : ZipFileReader) (i : Nat)
    (entry : ZipEntry) (contents : List Nat)
    (hidx : z.entries.get? i = some entry)
    (hopen : fs z.filename = Except.ok contents)
    (hbad : contents.length < entry.data_offset) :
    z.entry_reader fs i = Outcome.err (ZipError.IoError IOErr.seekBeyondEnd) := by
  have hno : ¬ entry.data_offset ≤ contents.length := Nat.not_le.mpr hbad
  have hidx' : z.entries[i]? = some entry := List.get?_eq_getElem? z.entries i ▸ hidx
  simp [ZipFileReader.entry_reader, hidx', hopen, seek, hno]

/-- Witness for C7: `ab.zip` is 4 bytes long; the indexed entry's data
offset is 100, and acquisition fails with the seek I/O failure. -/
theorem entry_reader_seek_beyond_end_witness :
    ZipFileReader.entry_reader fsAB zFar 0 =
      Outcome.err (ZipError.IoError IOErr.seekBeyondEnd) :=
  entry_reader_seek_beyond_end fsAB zFar 0 entryFar abContents rfl rfl
    (by decide)

/-- Claim C8.  On an unchanged archive, any two `entry_reader` calls for
the same index yield equal readers, hence equal decoded content read from
the start, under every decoder: no call changes what a later call
observes (the acquisition reads no mutable state — its result is a
function of the filesystem snapshot, the reader value and the index). -/
theorem entry_reader_idempotent (d : Decoder) (fs : FS) (z : ZipFileReader)
    (i : Nat) (r r' : ConcurrentReader)
    (h1 : z.entry_reader fs i = Outcome.ok r)
    (h2 : z.entry_reader fs i = Outcome.ok r') :
    r = r' ∧ readToEnd d r = readToEnd d r' := by
  have h := h1.symm.trans h2
  injection h with h
  exact ⟨h, by rw [h]⟩

/-- Witness for C8: two acquisitions of entry 0 of `ab.zip` yield the
same reader and the same decoded content. -/
theorem entry_reader_idempotent_witness :
    ({ entry := entryA, rawBytes := [10, 11] } : ConcurrentReader) =
      { entry := entryA, rawBytes := [10, 11] } ∧
    readToEnd toyDecode { entry := entryA, rawBytes := [10, 11] } =
      readToEnd toyDecode { entry := entryA, rawBytes := [10, 11] } :=
  entry_reader_idempotent toyDecode fsAB zAB 0
    { entry := entryA, rawBytes := [10, 11] }
    { entry := entryA, rawBytes := [10, 11] } (by decide) (by decide)

/-- Claim C9.  Two readers acquired for distinct valid indices share no
mutable state: running their reads under any interleaving schedule that
lets both finish produces exactly the result of the sequential schedule
(first reader to exhaustion, then the second), byte for byte. -/
theorem concurrent_reads_eq_sequential (d : Decoder) (fs : FS)
    (z : ZipFileReader) (i j : Nat) (r1 r2 : ConcurrentReader)
    (d1 d2 : List Nat) (sch : List Bool)
    (_hij : i ≠ j)
    (_h1 : z.entry_reader fs i = Outcome.ok r1)
    (_h2 : z.entry_reader fs j = Outcome.ok r2)
    (_hd1 : readToEnd d r1 = some d1)
    (_hd2 : readToEnd d r2 = some d2)
    (hT : d1.length ≤ countT sch)
    (hF : d2.length ≤ countF sch) :
    runSchedule sch (startState d1, startState d2) =
      runSchedule (seqSchedule d1.length d2.length)
        (startState d1, startState d2) := by
  rw [runSchedule_eq sch (startState d1) (startState d2),
    runSchedule_eq (seqSchedule d1.length d2.length) (startState d1) (startState d2),
    countT_seqSchedule, countF_seqSchedule,
    stepRead_iterate_exhaust (countT sch) (startState d1) hT,
    stepRead_iterate_exhaust (countF sch) (startState d2) hF,
    stepRead_iterate_exhaust d1.length (startState d1) (Nat.le_refl _),
    stepRead_iterate_exhaust d2.length (startState d2) (Nat.le_refl _)]

/-- Witness for C9: entries 0 and 1 of `ab.zip`, a strictly alternating
schedule, and the sequential schedule agree on both outputs. -/
theorem concurrent_reads_eq_sequential_witness :
    runSchedule [false, true, false, true]
        (startState [10, 11], startState [20, 21]) =
      runSchedule (seqSchedule 2 2) (startState [10, 11], startState [20, 21]) :=
  concurrent_reads_eq_sequential toyDecode fsAB zAB 0 1
    { entry := entryA, rawBytes := [10, 11] }
    { entry := entryB, rawBytes := [20, 21] }
    [10, 11] [20, 21] [false, true, false, true]
    (by decide) (by decide) (by decide) rfl rfl (by decide) (by decide)

/-- Claim C10.  `entry_reader` reopens the archive by its stored locator
on every call: even for a reader obtained from a successful construction
and a valid index, if opening the locator now fails, the call returns
exactly that open error and produces no reader. -/
theorem entry_reader_reopens_locator (fs0 fs1 : FS)
    (readCd : List Nat → Except ZipError (List ZipEntry)) (filename : String)
    (z : ZipFileReader) (i : Nat) (e : IOErr) (entry : ZipEntry)
    (_hnew : ZipFileReader.new fs0 readCd filename = Except.ok z)
    (hidx : z.entries.get? i = some entry)
    (hfail : fs1 z.filename = Except.error e) :
    z.entry_reader fs1 i = Outcome.err (ZipError.IoError e) := by
  have hidx' : z.entries[i]? = some entry := List.get?_eq_getElem? z.entries i ▸ hidx
  simp [ZipFileReader.entry_reader, hidx', hfail]

/-- Witness for C10: `ab.zip` is constructed successfully, then the file
disappears; acquisition of the still-valid index 0 fails with the open
error. -/
theorem entry_reader_reopens_locator_witness :
    ZipFileReader.entry_reader fsGone
        { filename := "ab.zip", entries := [entryA, entryB] } 0 =
      Outcome.err (ZipError.IoError IOErr.notFound) :=
  entry_reader_reopens_locator fsAB fsGone readCdAB "ab.zip"
    { filename := "ab.zip", entries := [entryA, entryB] } 0 IOErr.notFound entryA
    rfl rfl rfl

end ConcurrentZip
